import Mathlib

/-!
Verification of the costing-mvp recalculation engine.

This file gives a shallow embedding, in Lean 4, of the core of the
`ilramdhan/costing-mvp` repository: the calculation engine
(`internal/modules/costing/engine.go`), the job registry
(`internal/infrastructure/persistence/job_repo.go`), the variant and
process-step repositories
(`internal/infrastructure/persistence/master_yarn_repo.go`,
`job_repo.go`), and the formula parser (`pkg/formula/parser.go`).

Modelling conventions:
- Go `float64` values are modelled as exact rationals (`ℚ`).  Every
  concrete value appearing in the verified scenarios (10.0, 5.0, 15.0,
  0.1, 1.5, 16.5) is either exactly representable in binary64 or, in the
  single case of `15.0 * 0.1`, rounds in binary64 to exactly the value
  the rational model produces (1.5), so the scenario equalities agree
  with IEEE-754 double arithmetic.
- Go `uuid.UUID` values are modelled as `Nat`.
- Go `time.Time` values are modelled as `Nat` ticks.
- Go maps (`map[string]interface{}`) are modelled as association lists
  with pairwise-distinct keys in an arbitrary (iteration) order.
- The concurrent pipeline of `WorkerPool.RecalculateAll` is modelled by
  its observable aggregate effect: the worker phase maps each work item
  to either a summary or a failure tick, and the collector phase folds
  the stream of summaries into batches exactly as the Go collector
  goroutine does, with an oracle `flushOk` saying which upsert calls
  succeed.
-/

namespace Costing

/-- A dynamically-typed Go value, as stored in a `map[string]interface{}`
parameter bag.  Numeric payloads are exact rationals standing for the
corresponding Go numeric value. -/
inductive GoVal where
  | vFloat64 (q : ℚ)
  | vFloat32 (q : ℚ)
  | vInt (n : ℤ)
  | vInt64 (n : ℤ)
  | vString (s : String)
  | vBool (b : Bool)
deriving DecidableEq, Repr

/-- A parameter bag: a Go `map[string]interface{}` modelled as an
association list.  Keys are pairwise distinct where required; the list
order models the arbitrary iteration order of a Go map. -/
def Bag : Type := List (String × GoVal)

instance : DecidableEq Bag := by
  unfold Bag
  infer_instance

/-- Association-list lookup, modelling Go map indexing `params[key]`. -/
def Bag.lookup (b : Bag) (key : String) : Option GoVal :=
  List.lookup key b

/-- Formula abstract syntax.  Modelled from the spec: the source
evaluates formula strings with the third-party `expr-lang/expr` engine
(`pkg/formula/parser.go` merely calls `expr.Compile` / `expr.Run`), whose
code is not part of this repository; §4.1 of the spec fixes the surface
syntax (infix `+ - * /`, parentheses, ternary `?:`, comparisons) and the
semantics (operands promoted to 64-bit floats, missing identifiers are
an error).  A formula string such as `"a + b"` is represented here by
its abstract syntax tree. -/
inductive Expr where
  | num (q : ℚ)
  | var (name : String)
  | add (a b : Expr)
  | sub (a b : Expr)
  | mul (a b : Expr)
  | div (a b : Expr)
  | lt (a b : Expr)
  | le (a b : Expr)
  | gt (a b : Expr)
  | ge (a b : Expr)
  | eq (a b : Expr)
  | ne (a b : Expr)
  | cond (c a b : Expr)
deriving DecidableEq, Repr

/-- Result of evaluating a formula sub-expression: a number or a
boolean (booleans arise only from comparisons and feed only `?:`). -/
inductive EvalVal where
  | num (q : ℚ)
  | bool (b : Bool)
deriving DecidableEq, Repr

/-- Coerce a bag value to a 64-bit float, as the expression engine does
for numeric operands; non-numeric values are an error. -/
def GoVal.toNum : GoVal → Except String ℚ
  | .vFloat64 q => .ok q
  | .vFloat32 q => .ok q
  | .vInt n => .ok (n : ℚ)
  | .vInt64 n => .ok (n : ℚ)
  | .vString _ => .error "string operand"
  | .vBool _ => .error "bool operand"

/-- Modelled from the spec: evaluation of a formula over a parameter
bag (§4.1).  Identifiers missing from the bag produce an error;
arithmetic is over (exact models of) 64-bit floats; comparisons yield a
boolean usable as the condition of `?:`.  Division by zero is the one
place the rational model departs from IEEE-754 (no infinities); no
verified claim depends on it. -/
def evalExpr (params : Bag) : Expr → Except String EvalVal
  | .num q => .ok (.num q)
  | .var name =>
    match params.lookup name with
    | none => .error ("unknown name " ++ name)
    | some v => (v.toNum).map .num
  | .add a b => do
    match ← evalExpr params a, ← evalExpr params b with
    | .num x, .num y => .ok (.num (x + y))
    | _, _ => .error "arithmetic on non-number"
  | .sub a b => do
    match ← evalExpr params a, ← evalExpr params b with
    | .num x, .num y => .ok (.num (x - y))
    | _, _ => .error "arithmetic on non-number"
  | .mul a b => do
    match ← evalExpr params a, ← evalExpr params b with
    | .num x, .num y => .ok (.num (x * y))
    | _, _ => .error "arithmetic on non-number"
  | .div a b => do
    match ← evalExpr params a, ← evalExpr params b with
    | .num x, .num y => .ok (.num (x / y))
    | _, _ => .error "arithmetic on non-number"
  | .lt a b => do
    match ← evalExpr params a, ← evalExpr params b with
    | .num x, .num y => .ok (.bool (decide (x < y)))
    | _, _ => .error "comparison on non-number"
  | .le a b => do
    match ← evalExpr params a, ← evalExpr params b with
    | .num x, .num y => .ok (.bool (decide (x ≤ y)))
    | _, _ => .error "comparison on non-number"
  | .gt a b => do
    match ← evalExpr params a, ← evalExpr params b with
    | .num x, .num y => .ok (.bool (decide (y < x)))
    | _, _ => .error "comparison on non-number"
  | .ge a b => do
    match ← evalExpr params a, ← evalExpr params b with
    | .num x, .num y => .ok (.bool (decide (y ≤ x)))
    | _, _ => .error "comparison on non-number"
  | .eq a b => do
    match ← evalExpr params a, ← evalExpr params b with
    | .num x, .num y => .ok (.bool (decide (x = y)))
    | _, _ => .error "comparison on non-number"
  | .ne a b => do
    match ← evalExpr params a, ← evalExpr params b with
    | .num x, .num y => .ok (.bool (decide (x ≠ y)))
    | _, _ => .error "comparison on non-number"
  | .cond c a b => do
    match ← evalExpr params c with
    | .bool true => evalExpr params a
    | .bool false => evalExpr params b
    | .num _ => .error "condition is not a boolean"

/-- Embedding of `Parser.Evaluate` (`pkg/formula/parser.go`): compile
and run the formula as a float-valued program; a well-typed numeric
result is returned as a float, anything else is an error. -/
def Parser.Evaluate (expression : Expr) (params : Bag) : Except String ℚ :=
  match evalExpr params expression with
  | .ok (.num q) => .ok q
  | .ok (.bool _) => .error "unexpected result type"
  | .error e => .error e

/-- Embedding of `entity.ProcessStep` (`internal/domain/entity`),
keeping the fields the engine reads.  The formula string is carried as
its abstract syntax tree. -/
structure ProcessStep where
  id : Nat
  routingTemplateID : Nat
  sequenceOrder : ℤ
  formulaExpression : Expr
deriving DecidableEq, Repr

/-- Embedding of `entity.VariantCostSummary`, keeping the fields the
engine writes. -/
structure VariantCostSummary where
  yarnVariantID : Nat
  totalMaterialCost : ℚ
  totalProcessCost : ℚ
  totalOverhead : ℚ
  grandTotal : ℚ
  lastRecalculatedAt : Nat
  versionHash : String
deriving DecidableEq, Repr

/-- Embedding of `getFloatParam` (`engine.go:96-108`): read a key from
the bag, accepting only `float64`, `float32` and `int` payloads;
anything else — including an absent key — yields the default. -/
def getFloatParam (params : Bag) (key : String) (defaultVal : ℚ) : ℚ :=
  match params.lookup key with
  | some (.vFloat64 v) => v
  | some (.vFloat32 v) => v
  | some (.vInt n) => (n : ℚ)
  | _ => defaultVal

/-- Embedding of the JSON rendering of one bag value by Go's
`encoding/json`.  The decimal form of a rational stands for Go's
shortest-round-trip formatting of the corresponding `float64`; the
claims verified here depend only on this function being a fixed
function of the value. -/
def GoVal.jsonRepr : GoVal → String
  | .vFloat64 q => ratRepr q
  | .vFloat32 q => ratRepr q
  | .vInt n => toString n
  | .vInt64 n => toString n
  | .vString s => "\"" ++ s ++ "\""
  | .vBool b => if b then "true" else "false"
where
  /-- Decimal-style rendering of a rational number. -/
  ratRepr (q : ℚ) : String :=
    if q.den = 1 then toString q.num else toString q.num ++ "/" ++ toString q.den

/-- Render a list of already-ordered key/value pairs as a JSON object
with no insignificant whitespace. -/
def renderObject (entries : List (String × GoVal)) : String :=
  "\x7b" ++
    String.intercalate ","
      (entries.map (fun kv => "\"" ++ kv.1 ++ "\":" ++ kv.2.jsonRepr)) ++
  "\x7d"

/-- Ordering of bag entries by key, lexicographic on the key string. -/
def keyLE (a b : String × GoVal) : Prop := a.1 ≤ b.1

instance : DecidableRel keyLE := fun a b => by
  unfold keyLE
  infer_instance

instance : IsTotal (String × GoVal) keyLE := ⟨fun a b => le_total a.1 b.1⟩

instance : IsTrans (String × GoVal) keyLE := ⟨fun _ _ _ h1 h2 => le_trans h1 h2⟩

/-- Embedding of `json.Marshal` on a `map[string]interface{}`
(`engine.go:65`): Go's `encoding/json` serializes a map with its keys
sorted lexicographically and no insignificant whitespace, whatever the
map's iteration order. -/
def jsonMarshal (m : Bag) : String :=
  renderObject (List.insertionSort keyLE m)

/-! SHA-256, as used by `crypto/sha256.Sum256` in `engine.go:66`.
Executable reference implementation over byte lists; 32-bit words are
`Nat` values kept below `2 ^ 32`. -/

/-- Addition modulo `2 ^ 32`. -/
def add32 (a b : Nat) : Nat := (a + b) % 4294967296

/-- Right rotation of a 32-bit word by `n` bits. -/
def rotr32 (n x : Nat) : Nat := x / 2 ^ n + x % 2 ^ n * 2 ^ (32 - n)

/-- Logical right shift of a 32-bit word by `n` bits. -/
def shr32 (n x : Nat) : Nat := x / 2 ^ n

/-- Bitwise complement of a 32-bit word. -/
def not32 (x : Nat) : Nat := 4294967295 - x

/-- The SHA-256 `Ch` function. -/
def sha2Ch (x y z : Nat) : Nat := (x &&& y) ^^^ (not32 x &&& z)

/-- The SHA-256 `Maj` function. -/
def sha2Maj (x y z : Nat) : Nat := (x &&& y) ^^^ (x &&& z) ^^^ (y &&& z)

/-- The SHA-256 `Σ₀` function. -/
def bigSigma0 (x : Nat) : Nat := rotr32 2 x ^^^ rotr32 13 x ^^^ rotr32 22 x

/-- The SHA-256 `Σ₁` function. -/
def bigSigma1 (x : Nat) : Nat := rotr32 6 x ^^^ rotr32 11 x ^^^ rotr32 25 x

/-- The SHA-256 `σ₀` function. -/
def smallSigma0 (x : Nat) : Nat := rotr32 7 x ^^^ rotr32 18 x ^^^ shr32 3 x

/-- The SHA-256 `σ₁` function. -/
def smallSigma1 (x : Nat) : Nat := rotr32 17 x ^^^ rotr32 19 x ^^^ shr32 10 x

/-- The 64 SHA-256 round constants of FIPS 180-4 (the first 32 bits of
the fractional parts of the cube roots of the first 64 primes), written
in decimal. -/
def sha2K : List Nat :=
  [1116352408, 1899447441, 3049323471, 3921009573, 961987163,
   1508970993, 2453635748, 2870763221, 3624381080, 310598401,
   607225278, 1426881987, 1925078388, 2162078206, 2614888103,
   3248222580, 3835390401, 4022224774, 264347078, 604807628,
   770255983, 1249150122, 1555081692, 1996064986, 2554220882,
   2821834349, 2952996808, 3210313671, 3336571891, 3584528711,
   113926993, 338241895, 666307205, 773529912, 1294757372,
   1396182291, 1695183700, 1986661051, 2177026350, 2456956037,
   2730485921, 2820302411, 3259730800, 3345764771, 3516065817,
   3600352804, 4094571909, 275423344, 430227734, 506948616,
   659060556, 883997877, 958139571, 1322822218, 1537002063,
   1747873779, 1955562222, 2024104815, 2227730452, 2361852424,
   2428436474, 2756734187, 3204031479, 3329325298]

/-- Working state of the SHA-256 compression function. -/
structure Sha2State where
  a : Nat
  b : Nat
  c : Nat
  d : Nat
  e : Nat
  f : Nat
  g : Nat
  h : Nat
deriving DecidableEq, Repr

/-- The SHA-256 initial hash value of FIPS 180-4, in decimal. -/
def sha2H0 : Sha2State :=
  ⟨1779033703, 3144134277, 1013904242, 2773480762,
   1359893119, 2600822924, 528734635, 1541459225⟩

/-- Big-endian byte rendering of `n` into `k` bytes. -/
def beBytes : Nat → Nat → List Nat
  | 0, _ => []
  | k + 1, n => beBytes k (n / 256) ++ [n % 256]

/-- Group a byte list into big-endian 32-bit words. -/
def words32 : List Nat → List Nat
  | b0 :: b1 :: b2 :: b3 :: rest =>
    (((b0 * 256 + b1) * 256 + b2) * 256 + b3) :: words32 rest
  | _ => []

/-- Extend a 16-word message block to the 64-word SHA-256 schedule by
appending `k` additional scheduled words. -/
def extendSchedule : List Nat → Nat → List Nat
  | ws, 0 => ws
  | ws, k + 1 =>
    extendSchedule
      (ws ++ [add32
        (add32 (ws.getD (ws.length - 16) 0) (smallSigma0 (ws.getD (ws.length - 15) 0)))
        (add32 (ws.getD (ws.length - 7) 0) (smallSigma1 (ws.getD (ws.length - 2) 0)))]) k

/-- One SHA-256 round. -/
def sha2Round (st : Sha2State) (kw : Nat × Nat) : Sha2State :=
  let t1 := add32 st.h (add32 (bigSigma1 st.e) (add32 (sha2Ch st.e st.f st.g) (add32 kw.1 kw.2)))
  let t2 := add32 (bigSigma0 st.a) (sha2Maj st.a st.b st.c)
  ⟨add32 t1 t2, st.a, st.b, st.c, add32 st.d t1, st.e, st.f, st.g⟩

/-- SHA-256 compression of one 64-byte block into the running state. -/
def compressBlock (st : Sha2State) (block : List Nat) : Sha2State :=
  let ws := extendSchedule (words32 block) 48
  let fin := (sha2K.zip ws).foldl sha2Round st
  ⟨add32 st.a fin.a, add32 st.b fin.b, add32 st.c fin.c, add32 st.d fin.d,
   add32 st.e fin.e, add32 st.f fin.f, add32 st.g fin.g, add32 st.h fin.h⟩

/-- SHA-256 padding: append `0x80`, zero bytes to 56 mod 64, then the
64-bit big-endian message bit length. -/
def sha2Pad (msg : List Nat) : List Nat :=
  let padLen := (64 + 56 - (msg.length + 1) % 64) % 64
  msg ++ [128] ++ List.replicate padLen 0 ++ beBytes 8 (msg.length * 8)

/-- Split a byte list into 64-byte blocks. -/
def blocks64 (l : List Nat) : List (List Nat) :=
  if l = [] then [] else l.take 64 :: blocks64 (l.drop 64)
termination_by l.length
decreasing_by
  simp only [List.length_drop]
  have : l.length ≠ 0 := fun h => by simp_all [List.length_eq_zero]
  omega

/-- SHA-256 digest of a byte list, as 32 bytes. -/
def sha256 (msg : List Nat) : List Nat :=
  let fin := (blocks64 (sha2Pad msg)).foldl compressBlock sha2H0
  beBytes 4 fin.a ++ beBytes 4 fin.b ++ beBytes 4 fin.c ++ beBytes 4 fin.d ++
  beBytes 4 fin.e ++ beBytes 4 fin.f ++ beBytes 4 fin.g ++ beBytes 4 fin.h

/-- A lowercase hexadecimal digit. -/
def hexChar (n : Nat) : Char :=
  if n < 10 then Char.ofNat (48 + n) else Char.ofNat (87 + n)

/-- Lowercase hexadecimal rendering of a byte list, as
`hex.EncodeToString` produces (`engine.go:75`). -/
def hexEncode (bytes : List Nat) : String :=
  String.mk (bytes.foldr (fun b acc => hexChar (b / 16) :: hexChar (b % 16) :: acc) [])

/-- Byte serialization of a string; the JSON strings hashed by the
engine are ASCII, where UTF-8 bytes coincide with code points. -/
def strBytes (s : String) : List Nat :=
  s.data.map Char.toNat

/-- Lowercase-hex SHA-256 of a string, the composition the engine
applies to the marshalled parameter bag (`engine.go:65-75`). -/
def sha256hex (s : String) : String :=
  hexEncode (sha256 (strBytes s))

/-- Embedding of `CalculationEngine.CalculateVariantFast`
(`engine.go:46-77`): sum each step's formula value over the bag taking
`0` on evaluation error, read `material_cost` (default 0) and
`overhead_percentage` (default 0.1), and emit the summary with
`version_hash` the SHA-256 of the marshalled bag.  The timestamp
`time.Now()` is passed in as `now`. -/
def CalculateVariantFast (variantID : Nat) (steps : List ProcessStep)
    (inputParams : Bag) (now : Nat) : VariantCostSummary :=
  let totalProcessCost := steps.foldl
    (fun acc step =>
      acc + (match Parser.Evaluate step.formulaExpression inputParams with
             | .ok cost => cost
             | .error _ => 0)) 0
  let materialCost := getFloatParam inputParams "material_cost" 0
  let overhead := totalProcessCost * getFloatParam inputParams "overhead_percentage" (1 / 10)
  { yarnVariantID := variantID
    totalMaterialCost := materialCost
    totalProcessCost := totalProcessCost
    totalOverhead := overhead
    grandTotal := materialCost + totalProcessCost + overhead
    lastRecalculatedAt := now
    versionHash := sha256hex (jsonMarshal inputParams) }

/-- Canonical JSON serialization of a parameter bag as the spec words
it (§4.3 step 6): keys sorted lexicographically, no insignificant
whitespace, numbers in their natural form.  Written independently of
`jsonMarshal` (different sorting routine) so that agreement between the
two is a provable statement. -/
def specCanonicalJSON (m : Bag) : String :=
  renderObject (m.mergeSort (fun a b => decide (a.1 ≤ b.1)))

/-! The job registry (`internal/infrastructure/persistence/job_repo.go`).
Each repository method is embedded as the state transformation its SQL
statement performs on the job row. -/

/-- Embedding of `entity.JobStatus`. -/
inductive JobStatus where
  | pending
  | running
  | completed
  | failed
  | cancelled
deriving DecidableEq, Repr

/-- Embedding of `entity.BatchJob`, keeping the fields the registry
updates. -/
structure BatchJob where
  status : JobStatus
  totalRecords : ℤ
  processedRecords : ℤ
  failedRecords : ℤ
  errorMessage : Option String
  finishedAt : Option Nat
deriving DecidableEq, Repr

/-- Embedding of `batchJobRepo.UpdateStatus` (`job_repo.go:49-56`):
`UPDATE batch_jobs SET status = $2, processed_records = $3,
failed_records = $4 WHERE id = $1`.  The status and both counters are
overwritten unconditionally. -/
def UpdateStatus (j : BatchJob) (status : JobStatus) (processed failed : ℤ) : BatchJob :=
  { j with status := status, processedRecords := processed, failedRecords := failed }

/-- Embedding of `batchJobRepo.UpdateProgress` (`job_repo.go:58-65`):
`UPDATE batch_jobs SET processed_records = processed_records + $2,
failed_records = failed_records + $3 WHERE id = $1`. -/
def UpdateProgress (j : BatchJob) (processed failed : ℤ) : BatchJob :=
  { j with processedRecords := j.processedRecords + processed,
           failedRecords := j.failedRecords + failed }

/-- Embedding of `batchJobRepo.Complete` (`job_repo.go:67-75`):
`UPDATE batch_jobs SET status = $2, finished_at = $3 WHERE id = $1`
with status `COMPLETED`. -/
def Complete (j : BatchJob) (now : Nat) : BatchJob :=
  { j with status := .completed, finishedAt := some now }

/-- Embedding of `batchJobRepo.Fail` (`job_repo.go:77-85`):
`UPDATE batch_jobs SET status = $2, error_message = $3, finished_at = $4
WHERE id = $1` with status `FAILED`. -/
def Fail (j : BatchJob) (errorMsg : String) (now : Nat) : BatchJob :=
  { j with status := .failed, errorMessage := some errorMsg, finishedAt := some now }

/-! The variant and process-step repositories, over an abstract database
state.  SQL result ordering is modelled with `List.insertionSort`. -/

/-- A row of the `yarn_variants` table, keeping the columns the core
reads; `routing_template_id` is a nullable column. -/
structure VariantRow where
  id : Nat
  routingTemplateID : Option Nat
  isActive : Bool
deriving DecidableEq, Repr

/-- The database state visible to the recalculation core. -/
structure Db where
  yarnVariants : List VariantRow
  processSteps : List ProcessStep
deriving DecidableEq, Repr

/-- Ordering of process-step rows by `sequence_order`. -/
def seqLE (a b : ProcessStep) : Prop := a.sequenceOrder ≤ b.sequenceOrder

instance : DecidableRel seqLE := fun a b => by
  unfold seqLE
  infer_instance

instance : IsTotal ProcessStep seqLE := ⟨fun a b => le_total a.sequenceOrder b.sequenceOrder⟩

instance : IsTrans ProcessStep seqLE := ⟨fun _ _ _ h1 h2 => le_trans h1 h2⟩

/-- Embedding of `processStepRepo.GetByRoutingID` (`job_repo.go:119-139`):
`SELECT ... FROM process_steps WHERE routing_template_id = $1 ORDER BY
sequence_order`. -/
def GetByRoutingID (db : Db) (routingID : Nat) : List ProcessStep :=
  List.insertionSort seqLE
    (db.processSteps.filter (fun s => s.routingTemplateID = routingID))

/-- Embedding of `yarnVariantRepo.ListUniqueRoutingIDs`
(`master_yarn_repo.go:285-303`): `SELECT DISTINCT routing_template_id
FROM yarn_variants WHERE routing_template_id IS NOT NULL`.  Note there
is no `is_active` filter in this query. -/
def ListUniqueRoutingIDs (db : Db) : List Nat :=
  (db.yarnVariants.filterMap (fun v => v.routingTemplateID)).dedup

/-- Ordering of variant rows by `id`. -/
def idLE (a b : VariantRow) : Prop := a.id ≤ b.id

instance : DecidableRel idLE := fun a b => by
  unfold idLE
  infer_instance

instance : IsTotal VariantRow idLE := ⟨fun a b => Nat.le_total a.id b.id⟩

instance : IsTrans VariantRow idLE := ⟨fun _ _ _ h1 h2 => le_trans h1 h2⟩

/-- The active variants in ascending id order, the row set that
`yarnVariantRepo.ListWithRouting` pages over. -/
def activeSorted (db : Db) : List VariantRow :=
  List.insertionSort idLE (db.yarnVariants.filter (fun v => v.isActive))

/-- Embedding of `yarnVariantRepo.ListWithRouting`
(`master_yarn_repo.go:265-283`): `SELECT id, routing_template_id FROM
yarn_variants WHERE is_active = true ORDER BY id LIMIT $1 OFFSET $2`. -/
def ListWithRouting (db : Db) (limit offset : Nat) : List VariantRow :=
  ((activeSorted db).drop offset).take limit

/-- Embedding of `WorkerPool.loadRoutingStepsCache`
(`engine.go:315-336`): list the distinct routing ids, then load each
routing's ordered step list into the cache map.  (The Go code skips a
routing whose load errors; the abstract database never errors.) -/
def loadRoutingStepsCache (db : Db) : List (Nat × List ProcessStep) :=
  (ListUniqueRoutingIDs db).map (fun rid => (rid, GetByRoutingID db rid))

/-- The cache population as the spec describes it (§4.2 steps 1-2, claim
C7): the distinct routing identifiers referenced by any ACTIVE variant,
each mapped to its ordered step list.  Defined for comparison with
`loadRoutingStepsCache`. -/
def specRoutingStepsCache (db : Db) : List (Nat × List ProcessStep) :=
  ((db.yarnVariants.filter (fun v => v.isActive)).filterMap
      (fun v => v.routingTemplateID)).dedup.map
    (fun rid => (rid, GetByRoutingID db rid))

/-- The dispatcher loop body, with an explicit fuel argument so the
recursion is structural (the Go loop carries no fuel; the adequacy
lemma `dispatchLoop_eq_drop` shows the result is fuel-insensitive once
the fuel exceeds the number of pages): fetch a page of `n` rows at the
current offset, stop on an empty page, otherwise emit the page and
advance the offset by the page length. -/
def dispatchLoop (l : List VariantRow) (n : Nat) : Nat → Nat → List VariantRow
  | 0, _ => []
  | fuel + 1, offset =>
    if ((l.drop offset).take n) = [] then []
    else ((l.drop offset).take n) ++
      dispatchLoop l n fuel (offset + ((l.drop offset).take n).length)

/-- Embedding of the dispatcher goroutine of `WorkerPool.RecalculateAll`
(`engine.go:255-277`): page through `ListWithRouting` from the given
offset until a page comes back empty, emitting every fetched row in
order.  Each page is `((activeSorted db).drop offset).take n`, so the
fuel `l.length + 1` is never exhausted. -/
def dispatchFrom (l : List VariantRow) (n offset : Nat) : List VariantRow :=
  dispatchLoop l n (l.length + 1) offset

/-- A work item sent over the work channel: variant id and routing id
(`engine.go:171-174`).  A SQL NULL routing scans to the zero value. -/
def toWork (v : VariantRow) : Nat × Nat := (v.id, v.routingTemplateID.getD 0)

/-- The worker-goroutine body for one work item (`engine.go:209-220`):
a cache miss or an empty cached step list increments the failure
counter and produces nothing; otherwise the summary is computed from
the cached steps and sent to the result channel. -/
def workerOutcome (cache : List (Nat × List ProcessStep)) (bag : Bag) (now : Nat)
    (w : Nat × Nat) : Option VariantCostSummary :=
  match List.lookup w.2 cache with
  | none => none
  | some steps => if steps.length = 0 then none else some (CalculateVariantFast w.1 steps bag now)

/-- Aggregate totals produced by the result-collector goroutine. -/
structure Totals where
  store : List VariantCostSummary
  processedCount : Nat
  regDeltas : List Nat
deriving DecidableEq, Repr

/-- Embedding of the result-collector goroutine (`engine.go:223-253`),
folded over the stream of summaries in arrival order.  The buffer is
flushed when it reaches `n` elements: the upsert is attempted (`flushOk`
says whether it succeeds; on failure the error is only logged), the
in-process atomic counter is increased by the buffer length
unconditionally, and `UpdateProgress` is called with the buffer length
(recorded in `regDeltas`).  When the stream closes, a nonempty remaining
buffer is flushed the same way except that no `UpdateProgress` call is
made. -/
def collectorRun (n : Nat) (flushOk : Nat → Bool) (flushIdx : Nat)
    (buffer : List VariantCostSummary) : List VariantCostSummary → Totals
  | [] =>
    if buffer.isEmpty then ⟨[], 0, []⟩
    else ⟨if flushOk flushIdx then buffer else [], buffer.length, []⟩
  | x :: rest =>
    if n ≤ (buffer ++ [x]).length then
      ⟨(if flushOk flushIdx then buffer ++ [x] else []) ++
          (collectorRun n flushOk (flushIdx + 1) [] rest).store,
       (buffer ++ [x]).length + (collectorRun n flushOk (flushIdx + 1) [] rest).processedCount,
       (buffer ++ [x]).length :: (collectorRun n flushOk (flushIdx + 1) [] rest).regDeltas⟩
    else
      collectorRun n flushOk flushIdx (buffer ++ [x]) rest

/-- Observable result of one `WorkerPool.RecalculateAll` run. -/
structure RunResult where
  store : List VariantCostSummary
  processedCount : Nat
  failedCount : Nat
  regDeltas : List Nat
  finalJob : BatchJob
deriving DecidableEq, Repr

/-- Embedding of `WorkerPool.RecalculateAll` (`engine.go:139-313`) by
its observable aggregate effect: load the routing cache, mark the job
running with both counters set to 0, stream the active variants in
id-ordered pages of `n` through the workers (each work item yields a
summary or a failure tick), collect the summaries into batches of `n`
with per-full-flush `UpdateProgress` calls, and finally mark the job
complete. -/
def RecalculateAll (n : Nat) (flushOk : Nat → Bool) (db : Db) (bag : Bag)
    (now : Nat) (job0 : BatchJob) : RunResult :=
  let cache := loadRoutingStepsCache db
  let works := (dispatchFrom (activeSorted db) n 0).map toWork
  let summaries := works.filterMap (workerOutcome cache bag now)
  let failedCount := works.countP (fun w => (workerOutcome cache bag now w).isNone)
  let t := collectorRun n flushOk 0 [] summaries
  let job1 := UpdateStatus job0 .running 0 0
  let job2 := t.regDeltas.foldl (fun (j : BatchJob) (d : Nat) => UpdateProgress j (d : ℤ) 0) job1
  ⟨t.store, t.processedCount, failedCount, t.regDeltas, Complete job2 now⟩

/-- The successive states a job row passes through under a list of
registry operations, starting state included. -/
def jobTrace (j : BatchJob) : List (BatchJob → BatchJob) → List BatchJob
  | [] => [j]
  | op :: ops => j :: jobTrace (op j) ops

/-- The sequence of job-registry states a run takes the job row
through, in order: the initial row, after `UpdateStatus` to running,
after each full-flush `UpdateProgress`, and after `Complete`.  A
sampler reading `processed_records` during the run observes a
subsequence of the `processedRecords` values of this list. -/
def registrySamples (job0 : BatchJob) (deltas : List Nat) (now : Nat) : List BatchJob :=
  jobTrace job0
    ((fun j => UpdateStatus j .running 0 0) ::
      (deltas.map (fun (d : Nat) (j : BatchJob) => UpdateProgress j (d : ℤ) 0) ++
        [fun j => Complete j now]))

/-! Concrete fixtures used by the counterexample and witness
theorems. -/

/-- A process step whose formula is the constant `1`, attached to
routing `7`. -/
def stepOne : ProcessStep := ⟨21, 7, 1, .num 1⟩

/-- A database with a single ACTIVE variant on routing `7`. -/
def dbOne : Db := ⟨[⟨1, some 7, true⟩], [stepOne]⟩

/-- A database with three active variants sharing routing `7`. -/
def dbThree : Db :=
  ⟨[⟨1, some 7, true⟩, ⟨2, some 7, true⟩, ⟨3, some 7, true⟩], [stepOne]⟩

/-- A database whose only variant is INACTIVE yet references routing
`7`, which has a step. -/
def dbInactiveOnly : Db := ⟨[⟨1, some 7, false⟩], [stepOne]⟩

/-- A freshly created job row, as the REST handler builds it before a
run (status pending, all counters zero). -/
def jobInit : BatchJob := ⟨.pending, 0, 0, 0, none, none⟩

/-- A job row already in the terminal status `completed`. -/
def completedJob : BatchJob := ⟨.completed, 10, 10, 0, none, some 99⟩

/-- Scenario A's parameter bag `\x7ba: 10.0, b: 5.0\x7d`. -/
def bagAB : Bag := [("a", .vFloat64 10), ("b", .vFloat64 5)]

/-- The same bag in the opposite iteration order. -/
def bagBA : Bag := [("b", .vFloat64 5), ("a", .vFloat64 10)]

/-- Scenario A's single step: formula `"a + b"` on routing `7`. -/
def stepAB : ProcessStep := ⟨22, 7, 1, .add (.var "a") (.var "b")⟩

/-- The cost a step contributes to `total_process_cost`: the formula's
value, or `0` when compilation or evaluation errors
(`engine.go:52-58`). -/
def evalOrZero (bag : Bag) (e : Expr) : ℚ :=
  match Parser.Evaluate e bag with
  | .ok cost => cost
  | .error _ => 0

/-! Helper lemmas. -/

lemma foldl_add_eq_sum {α : Type} (f : α → ℚ) (l : List α) (c : ℚ) :
    l.foldl (fun acc x => acc + f x) c = c + (l.map f).sum := by
  induction l generalizing c with
  | nil => simp
  | cons hd tl ih => simp [ih, add_assoc]

lemma take_append_drop_length {α : Type} (d : List α) (n : Nat) :
    d.take n ++ d.drop (d.take n).length = d := by
  rcases le_total n d.length with h | h
  · rw [List.length_take, Nat.min_eq_left h, List.take_append_drop]
  · rw [List.take_of_length_le h]
    simp

lemma dispatchLoop_eq_drop (l : List VariantRow) (n : Nat) (hn : 0 < n) :
    ∀ fuel offset, l.length - offset < fuel → dispatchLoop l n fuel offset = l.drop offset := by
  intro fuel
  induction fuel with
  | zero => intro offset h; omega
  | succ k ih =>
    intro offset h
    rw [dispatchLoop]
    split
    case isTrue hemp =>
      have hdrop : l.drop offset = [] := by
        rcases List.eq_nil_or_concat (l.drop offset) with h0 | ⟨ys, y, hy⟩
        · exact h0
        · exfalso
          have : ((l.drop offset).take n) ≠ [] := by
            rw [hy]
            cases ys with
            | nil => cases n with
              | zero => omega
              | succ m => simp
            | cons z zs => cases n with
              | zero => omega
              | succ m => simp
          exact this hemp
      rw [hdrop]
    case isFalse hne =>
      have hlen : 0 < ((l.drop offset).take n).length := List.length_pos.mpr hne
      have hle : ((l.drop offset).take n).length ≤ l.length - offset := by
        rw [List.length_take, List.length_drop]
        omega
      rw [ih (offset + ((l.drop offset).take n).length) (by omega)]
      rw [← List.drop_drop]
      exact take_append_drop_length (l.drop offset) n

lemma dispatchFrom_eq_drop (l : List VariantRow) (n : Nat) (hn : 0 < n) (offset : Nat) :
    dispatchFrom l n offset = l.drop offset := by
  apply dispatchLoop_eq_drop l n hn
  omega

lemma lookup_map_self (l : List Nat) (f : Nat → List ProcessStep) (rid : Nat)
    (h : rid ∈ l) :
    List.lookup rid (l.map (fun r => (r, f r))) = some (f rid) := by
  induction l with
  | nil => cases h
  | cons a t ih =>
    rcases List.mem_cons.mp h with h1 | h2
    · subst h1
      simp [List.lookup]
    · by_cases ha : rid = a
      · subst ha
        simp [List.lookup]
      · have hb : (rid == a) = false := beq_eq_false_iff_ne.mpr ha
        simp only [List.map_cons, List.lookup, hb]
        exact ih h2

lemma sortedKey_eq (l₁ l₂ : List (String × GoVal)) (hp : l₁.Perm l₂)
    (hs₁ : l₁.Sorted keyLE) (hs₂ : l₂.Sorted keyLE)
    (hnd : (l₁.map Prod.fst).Nodup) : l₁ = l₂ := by
  haveI : IsAntisymm (String × GoVal) (fun a b => a.1 < b.1) :=
    ⟨fun a b h1 h2 => absurd (lt_trans h1 h2) (lt_irrefl _)⟩
  have hnd₁ : l₁.Pairwise (fun a b => a.1 ≠ b.1) := List.pairwise_map.mp hnd
  have hnd₂ : l₂.Pairwise (fun a b => a.1 ≠ b.1) :=
    List.pairwise_map.mp (((hp.map Prod.fst).nodup_iff).mp hnd)
  have hs₁' : l₁.Sorted (fun a b => a.1 < b.1) :=
    (hs₁.and hnd₁).imp (fun h => lt_of_le_of_ne h.1 h.2)
  have hs₂' : l₂.Sorted (fun a b => a.1 < b.1) :=
    (hs₂.and hnd₂).imp (fun h => lt_of_le_of_ne h.1 h.2)
  exact List.eq_of_perm_of_sorted hp hs₁' hs₂'

lemma insertionSort_key_perm (m : Bag) : (List.insertionSort keyLE m).Perm m :=
  List.perm_insertionSort keyLE m

lemma insertionSort_key_sorted (m : Bag) : (List.insertionSort keyLE m).Sorted keyLE :=
  List.sorted_insertionSort keyLE m

lemma jsonMarshal_perm (b₁ b₂ : Bag) (hnd : (b₁.map Prod.fst).Nodup)
    (hp : List.Perm b₁ b₂) : jsonMarshal b₁ = jsonMarshal b₂ := by
  unfold jsonMarshal
  congr 1
  apply sortedKey_eq
  · exact (insertionSort_key_perm b₁).trans (hp.trans (insertionSort_key_perm b₂).symm)
  · exact insertionSort_key_sorted b₁
  · exact insertionSort_key_sorted b₂
  · exact ((insertionSort_key_perm b₁).map Prod.fst).nodup_iff.mpr hnd

lemma mergeSort_key_sorted (m : Bag) :
    (m.mergeSort (fun a b => decide (a.1 ≤ b.1))).Sorted keyLE := by
  have h := @List.sorted_mergeSort (String × GoVal)
    (fun a b => decide (a.1 ≤ b.1))
    (fun a b c h1 h2 => by
      simp only [decide_eq_true_eq] at h1 h2 ⊢
      exact le_trans h1 h2)
    (fun a b => by
      simp only [Bool.or_eq_true, decide_eq_true_eq]
      exact le_total a.1 b.1)
    m
  exact h.imp (fun hab => by simpa [keyLE] using hab)

lemma jsonMarshal_eq_specCanonicalJSON (m : Bag) (hnd : (m.map Prod.fst).Nodup) :
    jsonMarshal m = specCanonicalJSON m := by
  unfold jsonMarshal specCanonicalJSON
  congr 1
  apply sortedKey_eq
  · exact (insertionSort_key_perm m).trans (List.mergeSort_perm m _).symm
  · exact insertionSort_key_sorted m
  · exact mergeSort_key_sorted m
  · exact ((insertionSort_key_perm m).map Prod.fst).nodup_iff.mpr hnd

lemma collectorRun_all_ok (n : Nat) (f : Nat → Bool) (hf : ∀ k, f k = true) :
    ∀ (s : List VariantCostSummary) (i : Nat) (buf : List VariantCostSummary),
      (collectorRun n f i buf s).store = buf ++ s ∧
      (collectorRun n f i buf s).processedCount = buf.length + s.length := by
  intro s
  induction s with
  | nil =>
    intro i buf
    rw [collectorRun]
    by_cases hb : buf.isEmpty
    · have : buf = [] := List.isEmpty_iff.mp hb
      simp [hb, this]
    · simp [hb, hf i]
  | cons x rest ih =>
    intro i buf
    rw [collectorRun]
    split
    case isTrue hflush =>
      have h1 := ih (i + 1) []
      simp only [hf i, if_true]
      constructor
      · simp [h1.1]
      · simp [h1.2]
        omega
    case isFalse hnf =>
      have h1 := ih i (buf ++ [x])
      constructor
      · simp [h1.1]
      · simp [h1.2]
        omega

lemma collectorRun_counts (n : Nat) (f : Nat → Bool) (hn : 0 < n) :
    ∀ (s : List VariantCostSummary) (i : Nat) (buf : List VariantCostSummary),
      buf.length < n →
      (collectorRun n f i buf s).processedCount = buf.length + s.length ∧
      (collectorRun n f i buf s).regDeltas = List.replicate ((buf.length + s.length) / n) n := by
  intro s
  induction s with
  | nil =>
    intro i buf hlt
    rw [collectorRun]
    have hdiv : buf.length / n = 0 := Nat.div_eq_of_lt hlt
    by_cases hb : buf.isEmpty
    · have : buf = [] := List.isEmpty_iff.mp hb
      simp [hb, this]
    · simp [hb, hdiv]
  | cons x rest ih =>
    intro i buf hlt
    rw [collectorRun]
    split
    case isTrue hflush =>
      have hlf : (buf ++ [x]).length = buf.length + 1 := by simp
      rw [hlf] at hflush
      have hbn : buf.length + 1 = n := by omega
      have h1 := ih (i + 1) [] (by simpa using hn)
      have harg : (buf.length + (x :: rest).length) / n = rest.length / n + 1 := by
        rw [show buf.length + (x :: rest).length = rest.length + n by simp; omega]
        exact Nat.add_div_right rest.length hn
      constructor
      · simp only [h1.1, hlf, List.length_nil, Nat.zero_add, List.length_cons]
        omega
      · simp only [h1.2, hlf, List.length_nil, Nat.zero_add, harg, List.replicate_succ]
        congr 1
    case isFalse hnf =>
      have hlf : (buf ++ [x]).length = buf.length + 1 := by simp
      rw [hlf] at hnf
      have h1 := ih i (buf ++ [x]) (by omega)
      constructor
      · simp only [h1.1, hlf, List.length_cons]
        omega
      · simp only [h1.2, hlf, List.length_cons]
        rw [show buf.length + 1 + rest.length = buf.length + (rest.length + 1) from by omega]

lemma workerOutcome_id (cache : List (Nat × List ProcessStep)) (bag : Bag) (now : Nat)
    (w : Nat × Nat) (s : VariantCostSummary) (h : workerOutcome cache bag now w = some s) :
    s.yarnVariantID = w.1 := by
  unfold workerOutcome at h
  rcases hc : List.lookup w.2 cache with _ | steps
  · rw [hc] at h
    cases h
  · rw [hc] at h
    by_cases hl : steps.length = 0
    · simp [hl] at h
    · simp only [hl, if_false] at h
      cases h
      rfl

/-- Whether the worker treats a routing id as present: a cached,
nonempty step list (`engine.go:212-216`). -/
def cacheHit (cache : List (Nat × List ProcessStep)) (rid : Nat) : Bool :=
  match List.lookup rid cache with
  | none => false
  | some steps => !(steps.length == 0)

lemma workerOutcome_isSome (cache : List (Nat × List ProcessStep)) (bag : Bag) (now : Nat)
    (w : Nat × Nat) : (workerOutcome cache bag now w).isSome = cacheHit cache w.2 := by
  unfold workerOutcome cacheHit
  rcases List.lookup w.2 cache with _ | steps
  · rfl
  · by_cases hl : steps.length = 0
    · simp [hl]
    · simp [hl]

lemma summaries_ids (cache : List (Nat × List ProcessStep)) (bag : Bag) (now : Nat) :
    ∀ works : List (Nat × Nat),
      (works.filterMap (workerOutcome cache bag now)).map (fun s => s.yarnVariantID) =
        (works.filter (fun w => cacheHit cache w.2)).map Prod.fst := by
  intro works
  induction works with
  | nil => rfl
  | cons w tl ih =>
    rcases hw : workerOutcome cache bag now w with _ | s
    · have hhit : cacheHit cache w.2 = false := by
        rw [← workerOutcome_isSome cache bag now w, hw]
        rfl
      simp [List.filterMap_cons, hw, List.filter_cons, hhit, ih]
    · have hhit : cacheHit cache w.2 = true := by
        rw [← workerOutcome_isSome cache bag now w, hw]
        rfl
      simp [List.filterMap_cons, hw, List.filter_cons, hhit, ih,
        workerOutcome_id cache bag now w s hw]

lemma foldl_UpdateProgress (deltas : List Nat) (j : BatchJob) :
    (deltas.foldl (fun (j : BatchJob) (d : Nat) => UpdateProgress j (d : ℤ) 0) j).processedRecords =
      j.processedRecords + (deltas.sum : ℤ) ∧
    (deltas.foldl (fun (j : BatchJob) (d : Nat) => UpdateProgress j (d : ℤ) 0) j).failedRecords =
      j.failedRecords ∧
    (deltas.foldl (fun (j : BatchJob) (d : Nat) => UpdateProgress j (d : ℤ) 0) j).status = j.status := by
  induction deltas generalizing j with
  | nil => simp
  | cons d tl ih =>
    have h := ih (UpdateProgress j (d : ℤ) 0)
    refine ⟨?_, ?_, ?_⟩
    · rw [List.foldl_cons, h.1]
      simp [UpdateProgress]
      ring
    · rw [List.foldl_cons, h.2.1]
      simp [UpdateProgress]
    · rw [List.foldl_cons, h.2.2]
      simp [UpdateProgress]

lemma jobTrace_head (j : BatchJob) (ops : List (BatchJob → BatchJob)) :
    (jobTrace j ops).head? = some j := by
  cases ops <;> rfl

lemma jobTrace_getLast (j : BatchJob) (ops : List (BatchJob → BatchJob)) :
    (jobTrace j ops).getLast? = some (ops.foldl (fun j op => op j) j) := by
  induction ops generalizing j with
  | nil => rfl
  | cons op tl ih =>
    cases tl with
    | nil => rfl
    | cons op2 tl2 =>
      show (j :: (op j :: jobTrace (op2 (op j)) tl2)).getLast? = _
      rw [List.getLast?_cons_cons]
      exact ih (op j)

lemma jobTrace_chain (R : BatchJob → BatchJob → Prop)
    (ops : List (BatchJob → BatchJob)) (h : ∀ op ∈ ops, ∀ j, R j (op j)) :
    ∀ j, List.Chain' R (jobTrace j ops) := by
  induction ops with
  | nil =>
    intro j
    simp [jobTrace]
  | cons op tl ih =>
    intro j
    rw [jobTrace]
    apply List.chain'_cons'.mpr
    constructor
    · intro y hy
      rw [jobTrace_head] at hy
      cases hy
      exact h op (List.mem_cons_self op tl) j
    · exact ih (fun o ho j' => h o (List.mem_cons_of_mem op ho) j') (op j)

/-! Theorems for the verified claims. -/

/-- C3: for every variant with cached step list `steps` and parameter
bag `P`, `CalculateVariantFast` returns a summary whose
`total_process_cost` is the left-to-right sum of each step's formula
value over `P` (taking `0` for a step whose evaluation errors), whose
`total_material_cost` is `P["material_cost"]` (default 0), whose
`total_overhead` is `total_process_cost * P["overhead_percentage"]`
(default 1/10), and whose `grand_total` is exactly their sum with no
rounding; in particular formula `"a + b"` with bag `(a 10, b 5)` and
one step yields process cost 15, overhead 3/2, material cost 0 and
grand total 33/2. -/
theorem calculateVariantFast_fields_and_scenarioA :
    (∀ (variantID : Nat) (steps : List ProcessStep) (bag : Bag) (now : Nat),
      (CalculateVariantFast variantID steps bag now).totalProcessCost =
        (steps.map (fun st => evalOrZero bag st.formulaExpression)).sum ∧
      (CalculateVariantFast variantID steps bag now).totalMaterialCost =
        getFloatParam bag "material_cost" 0 ∧
      (CalculateVariantFast variantID steps bag now).totalOverhead =
        (CalculateVariantFast variantID steps bag now).totalProcessCost *
          getFloatParam bag "overhead_percentage" (1 / 10) ∧
      (CalculateVariantFast variantID steps bag now).grandTotal =
        (CalculateVariantFast variantID steps bag now).totalMaterialCost +
          (CalculateVariantFast variantID steps bag now).totalProcessCost +
          (CalculateVariantFast variantID steps bag now).totalOverhead) ∧
    (CalculateVariantFast 1 [stepAB] bagAB 0).totalProcessCost = 15 ∧
    (CalculateVariantFast 1 [stepAB] bagAB 0).totalOverhead = 3 / 2 ∧
    (CalculateVariantFast 1 [stepAB] bagAB 0).totalMaterialCost = 0 ∧
    (CalculateVariantFast 1 [stepAB] bagAB 0).grandTotal = 33 / 2 := by
  refine ⟨fun variantID steps bag now => ⟨?_, rfl, rfl, rfl⟩, ?_, ?_, ?_, ?_⟩
  · show steps.foldl (fun acc st => acc + evalOrZero bag st.formulaExpression) 0 = _
    rw [foldl_add_eq_sum]
    exact zero_add _
  on_goal 1 =>
    simp [CalculateVariantFast, Parser.Evaluate, evalExpr, Bag.lookup, List.lookup,
      GoVal.toNum, stepAB, bagAB, Except.map, Except.bind, Bind.bind, Except.instMonad]
    norm_num
  on_goal 1 =>
    simp [CalculateVariantFast, Parser.Evaluate, evalExpr, Bag.lookup, List.lookup,
      GoVal.toNum, getFloatParam, stepAB, bagAB, Except.map, Except.bind, Bind.bind,
      Except.instMonad]
    norm_num
  on_goal 1 =>
    simp [CalculateVariantFast, getFloatParam, bagAB, Bag.lookup, List.lookup]
  simp [CalculateVariantFast, Parser.Evaluate, evalExpr, Bag.lookup, List.lookup,
    GoVal.toNum, getFloatParam, stepAB, bagAB, Except.map, Except.bind, Bind.bind,
    Except.instMonad]
  norm_num

/-- C10: when the bag binds `material_cost` or `overhead_percentage`
(or any key) to a value whose dynamic type is not `float64`, `float32`
or `int` — a string, bool or `int64` — `getFloatParam` returns the
default, exactly as for a bag in which the key is absent. -/
theorem getFloatParam_nonNumericDefaults (bag : Bag) (key : String) (d : ℚ) (v : GoVal)
    (hv : bag.lookup key = some v)
    (hnum : match v with
      | .vFloat64 _ => False
      | .vFloat32 _ => False
      | .vInt _ => False
      | _ => True) :
    getFloatParam bag key d = d ∧
    ∀ bag' : Bag, bag'.lookup key = none → getFloatParam bag' key d = d := by
  constructor
  · unfold getFloatParam
    rw [hv]
    cases v with
    | vFloat64 q => exact hnum.elim
    | vFloat32 q => exact hnum.elim
    | vInt nn => exact hnum.elim
    | vInt64 nn => rfl
    | vString s => rfl
    | vBool b => rfl
  · intro bag' h'
    unfold getFloatParam
    rw [h']

theorem getFloatParam_nonNumericDefaults_witness :
    (([("material_cost", GoVal.vString "ten")] : Bag).lookup "material_cost" =
        some (GoVal.vString "ten")) ∧
    getFloatParam [("material_cost", GoVal.vString "ten")] "material_cost" 0 = 0 :=
  ⟨by decide,
    (getFloatParam_nonNumericDefaults [("material_cost", GoVal.vString "ten")]
      "material_cost" 0 (GoVal.vString "ten") (by decide) trivial).1⟩

/-- C6 counterexample: the job-registry operations carry no
terminal-status guard — `UpdateStatus` moves a job whose status is
`completed` straight back to `running`, so the claim that every
registry operation refuses to transition a terminal job is false. -/
theorem updateStatus_leaves_terminal :
    completedJob.status = .completed ∧
    (UpdateStatus completedJob .running 0 0).status = .running ∧
    JobStatus.running ≠ JobStatus.completed := by
  refine ⟨rfl, rfl, ?_⟩
  decide

/-- C6 amended: the registry update operations overwrite the job's
status unconditionally, whatever the current status: `UpdateStatus`
sets the given status, `Complete` always sets `completed`, and `Fail`
always sets `failed`; no operation checks for a terminal status
first. -/
theorem registry_overwrites_status (j : BatchJob) (st : JobStatus) (p f : ℤ)
    (msg : String) (now : Nat) :
    (UpdateStatus j st p f).status = st ∧
    (Complete j now).status = .completed ∧
    (Fail j msg now).status = .failed :=
  ⟨rfl, rfl, rfl⟩

/-- C7 counterexample: `ListUniqueRoutingIDs` has no `is_active`
filter, so the cache is keyed by routing `7` even though only an
INACTIVE variant references it, while the claim's "routing identifiers
referenced by any active variant" set is empty. -/
theorem loadRoutingStepsCache_includes_inactive :
    (loadRoutingStepsCache dbInactiveOnly).map Prod.fst = [7] ∧
    (specRoutingStepsCache dbInactiveOnly).map Prod.fst = [] := by
  constructor
  · decide
  · decide

/-- C7 amended: at the start of each job the cache is populated from
the distinct routing identifiers referenced by ANY variant whose
routing id is non-null (active or not), each mapped to its step list
loaded in `sequence_order`; the engine only reads the cache
afterwards. -/
theorem loadRoutingStepsCache_spec (db : Db) :
    (loadRoutingStepsCache db).map Prod.fst = ListUniqueRoutingIDs db ∧
    ∀ rid, rid ∈ ListUniqueRoutingIDs db →
      List.lookup rid (loadRoutingStepsCache db) = some (GetByRoutingID db rid) ∧
      (GetByRoutingID db rid).Sorted seqLE := by
  constructor
  · unfold loadRoutingStepsCache
    rw [List.map_map]
    rw [show (Prod.fst ∘ fun rid => (rid, GetByRoutingID db rid)) = id from rfl]
    exact List.map_id _
  · intro rid hr
    exact ⟨lookup_map_self _ _ _ hr, List.sorted_insertionSort seqLE _⟩

theorem loadRoutingStepsCache_spec_witness :
    (7 ∈ ListUniqueRoutingIDs dbInactiveOnly) ∧
    (List.lookup 7 (loadRoutingStepsCache dbInactiveOnly) =
        some (GetByRoutingID dbInactiveOnly 7) ∧
      (GetByRoutingID dbInactiveOnly 7).Sorted seqLE) :=
  ⟨by decide, (loadRoutingStepsCache_spec dbInactiveOnly).2 7 (by decide)⟩

/-- C4: the `version_hash` of every summary equals the lowercase-hex
SHA-256 of the canonical JSON serialization of the parameter bag (keys
sorted lexicographically, no insignificant whitespace); it is a
deterministic function of the bag alone — independent of the variant,
the steps and the timestamp, and invariant under the bag's arbitrary
map-iteration order — so all variants in one job share one hash and
identical inputs give identical hashes across runs. -/
theorem versionHash_canonical (bag bag' : Bag) (v v' : Nat)
    (steps steps' : List ProcessStep) (now now' : Nat)
    (hnd : (bag.map Prod.fst).Nodup) (hp : bag.Perm bag') :
    (CalculateVariantFast v steps bag now).versionHash =
      sha256hex (specCanonicalJSON bag) ∧
    (CalculateVariantFast v steps bag now).versionHash =
      (CalculateVariantFast v' steps' bag' now').versionHash := by
  have h1 : (CalculateVariantFast v steps bag now).versionHash =
      sha256hex (jsonMarshal bag) := rfl
  have h2 : (CalculateVariantFast v' steps' bag' now').versionHash =
      sha256hex (jsonMarshal bag') := rfl
  constructor
  · rw [h1, jsonMarshal_eq_specCanonicalJSON bag hnd]
  · rw [h1, h2, jsonMarshal_perm bag bag' hnd hp]

theorem versionHash_canonical_witness :
    ((bagAB.map Prod.fst).Nodup ∧ bagAB.Perm bagBA) ∧
    ((CalculateVariantFast 1 [stepAB] bagAB 0).versionHash =
        sha256hex (specCanonicalJSON bagAB) ∧
      (CalculateVariantFast 1 [stepAB] bagAB 0).versionHash =
        (CalculateVariantFast 2 [] bagBA 5).versionHash) :=
  ⟨⟨by decide, by decide⟩,
    versionHash_canonical bagAB bagBA 1 2 [stepAB] [] 0 5 (by decide) (by decide)⟩

/-- C5: a formula compilation or evaluation error contributes `0` to
the step sum and the variant still produces a summary, while a variant
produces no summary and is the one counted failed exactly when its
routing is missing from the cache or cached with an empty step list. -/
theorem failure_policy (cache : List (Nat × List ProcessStep)) (bag : Bag)
    (now : Nat) (w : Nat × Nat) :
    (workerOutcome cache bag now w = none ↔
      List.lookup w.2 cache = none ∨ List.lookup w.2 cache = some []) ∧
    (∀ steps, List.lookup w.2 cache = some steps → steps ≠ [] →
      workerOutcome cache bag now w = some (CalculateVariantFast w.1 steps bag now)) ∧
    (∀ e msg, Parser.Evaluate e bag = .error msg → evalOrZero bag e = 0) ∧
    (∀ (variantID : Nat) (steps : List ProcessStep),
      (CalculateVariantFast variantID steps bag now).totalProcessCost =
        (steps.map (fun st => evalOrZero bag st.formulaExpression)).sum) := by
  refine ⟨?_, ?_, ?_, ?_⟩
  · unfold workerOutcome
    rcases hc : List.lookup w.2 cache with _ | steps
    · simp
    · by_cases hl : steps.length = 0
      · have : steps = [] := List.length_eq_zero.mp hl
        subst this
        simp
      · have : steps ≠ [] := fun he => hl (by simp [he])
        simp [hl, this]
  · intro steps hs hne
    unfold workerOutcome
    rw [hs]
    have : steps.length ≠ 0 := fun h0 => hne (List.length_eq_zero.mp h0)
    simp [this]
  · intro e msg hmsg
    unfold evalOrZero
    rw [hmsg]
  · intro variantID steps
    show steps.foldl (fun acc st => acc + evalOrZero bag st.formulaExpression) 0 = _
    rw [foldl_add_eq_sum]
    exact zero_add _

theorem failure_policy_witness :
    (List.lookup 7 [(7, [stepOne])] = some [stepOne] ∧ [stepOne] ≠ [] ∧
      workerOutcome [(7, [stepOne])] [] 0 (1, 7) =
        some (CalculateVariantFast 1 [stepOne] [] 0)) ∧
    (Parser.Evaluate (.var "missing") [] = .error "unknown name missing" ∧
      evalOrZero [] (.var "missing") = 0) :=
  ⟨⟨by decide, by decide,
      (failure_policy [(7, [stepOne])] [] 0 (1, 7)).2.1 [stepOne] (by decide) (by decide)⟩,
    ⟨rfl, (failure_policy [(7, [stepOne])] [] 0 (1, 7)).2.2.1 (.var "missing")
      "unknown name missing" rfl⟩⟩

/-- C8: the paging reader streams the active variants in ascending
variant-id order in pages of size `n`; the pages are half-open and
non-overlapping (from any offset the stream is exactly the remaining
suffix), together they cover every active variant exactly once, and
the reader stops when a page returns empty. -/
theorem dispatcher_streams (db : Db) (n : Nat) (hn : 0 < n) :
    dispatchFrom (activeSorted db) n 0 = activeSorted db ∧
    (activeSorted db).Sorted idLE ∧
    (∀ offset, dispatchFrom (activeSorted db) n offset = (activeSorted db).drop offset) ∧
    (activeSorted db).Perm (db.yarnVariants.filter (fun v => v.isActive)) := by
  refine ⟨?_, List.sorted_insertionSort idLE _,
    fun offset => dispatchFrom_eq_drop _ n hn offset, List.perm_insertionSort idLE _⟩
  rw [dispatchFrom_eq_drop _ n hn 0, List.drop_zero]

theorem dispatcher_streams_witness :
    0 < 2 ∧
    (dispatchFrom (activeSorted dbThree) 2 0 = activeSorted dbThree ∧
      (activeSorted dbThree).Sorted idLE ∧
      (∀ offset, dispatchFrom (activeSorted dbThree) 2 offset =
        (activeSorted dbThree).drop offset) ∧
      (activeSorted dbThree).Perm
        (dbThree.yarnVariants.filter (fun v => v.isActive))) :=
  ⟨by decide, dispatcher_streams dbThree 2 (by decide)⟩

/-- C1 counterexample: when the single batch flush fails the visited
variant gets NEITHER outcome — the store stays empty and the failure
counter stays 0 (the Go collector only logs the upsert error), so the
claim's "exactly one of the two outcomes, never neither" is false as
stated. -/
theorem flushFailure_neither_outcome :
    (RecalculateAll 1 (fun _ => false) dbOne [] 0 jobInit).store = [] ∧
    (RecalculateAll 1 (fun _ => false) dbOne [] 0 jobInit).failedCount = 0 := by
  constructor
  · decide
  · decide

/-- C1 amended: provided every batch flush succeeds, each visited
variant gets exactly one outcome: the store receives exactly the
summaries of the variants whose routing is cached with a nonempty step
list (one each, under their own variant id), and the failure counter
counts exactly the other visited variants. -/
theorem exactlyOne_outcome_allFlushesOk (n : Nat) (flushOk : Nat → Bool) (db : Db)
    (bag : Bag) (now : Nat) (job0 : BatchJob) (hf : ∀ k, flushOk k = true) :
    (RecalculateAll n flushOk db bag now job0).store.map (fun s => s.yarnVariantID) =
      (((dispatchFrom (activeSorted db) n 0).map toWork).filter
        (fun w => cacheHit (loadRoutingStepsCache db) w.2)).map Prod.fst ∧
    (RecalculateAll n flushOk db bag now job0).failedCount =
      (((dispatchFrom (activeSorted db) n 0).map toWork).filter
        (fun w => !(cacheHit (loadRoutingStepsCache db) w.2))).length := by
  have hs := collectorRun_all_ok n flushOk hf
    (((dispatchFrom (activeSorted db) n 0).map toWork).filterMap
      (workerOutcome (loadRoutingStepsCache db) bag now)) 0 []
  constructor
  · show ((collectorRun n flushOk 0 []
      (((dispatchFrom (activeSorted db) n 0).map toWork).filterMap
        (workerOutcome (loadRoutingStepsCache db) bag now))).store).map
          (fun s => s.yarnVariantID) = _
    rw [hs.1, List.nil_append]
    exact summaries_ids (loadRoutingStepsCache db) bag now _
  · show (((dispatchFrom (activeSorted db) n 0).map toWork).countP
      (fun w => (workerOutcome (loadRoutingStepsCache db) bag now w).isNone)) = _
    rw [List.countP_eq_length_filter]
    congr 1
    apply List.filter_congr
    intro w _
    rw [← workerOutcome_isSome (loadRoutingStepsCache db) bag now w]
    cases workerOutcome (loadRoutingStepsCache db) bag now w <;> rfl

theorem exactlyOne_outcome_allFlushesOk_witness :
    (∀ k : Nat, (fun _ : Nat => true) k = true) ∧
    ((RecalculateAll 1 (fun _ => true) dbOne [] 0 jobInit).store.map
        (fun s => s.yarnVariantID) =
      (((dispatchFrom (activeSorted dbOne) 1 0).map toWork).filter
        (fun w => cacheHit (loadRoutingStepsCache dbOne) w.2)).map Prod.fst ∧
    (RecalculateAll 1 (fun _ => true) dbOne [] 0 jobInit).failedCount =
      (((dispatchFrom (activeSorted dbOne) 1 0).map toWork).filter
        (fun w => !(cacheHit (loadRoutingStepsCache dbOne) w.2))).length) :=
  ⟨fun _ => rfl,
    exactlyOne_outcome_allFlushesOk 1 (fun _ => true) dbOne [] 0 jobInit (fun _ => rfl)⟩

/-- C2 counterexample: with batch size 2 and three summaries, all
three are written and the in-process counter reaches 3, but the job
registry receives only the one full-buffer `UpdateProgress` of 2 — the
final flush of the remaining buffer never updates the registry, so the
claim's "both in-process and in the job registry ... including the
final flush" is false as stated. -/
theorem finalFlush_skips_registry :
    (RecalculateAll 2 (fun _ => true) dbThree [] 0 jobInit).processedCount = 3 ∧
    (RecalculateAll 2 (fun _ => true) dbThree [] 0 jobInit).finalJob.processedRecords = 2 ∧
    (RecalculateAll 2 (fun _ => true) dbThree [] 0 jobInit).store.length = 3 := by
  refine ⟨?_, ?_, ?_⟩
  · decide
  · decide
  · decide

/-- C2 amended: after every flush — full-buffer or final, successful
or not — the flushed count is added to the in-process counter, which
therefore ends at the number of collected summaries; the job registry
is additionally updated by `UpdateProgress` only on full-buffer
flushes, each of exactly the batch size, so it ends at
`batchSize * (count / batchSize)`. -/
theorem progress_added_per_flush (n : Nat) (flushOk : Nat → Bool) (db : Db)
    (bag : Bag) (now : Nat) (job0 : BatchJob) (hn : 0 < n) :
    (RecalculateAll n flushOk db bag now job0).processedCount =
      (((dispatchFrom (activeSorted db) n 0).map toWork).filterMap
        (workerOutcome (loadRoutingStepsCache db) bag now)).length ∧
    (RecalculateAll n flushOk db bag now job0).regDeltas =
      List.replicate
        ((((dispatchFrom (activeSorted db) n 0).map toWork).filterMap
          (workerOutcome (loadRoutingStepsCache db) bag now)).length / n) n ∧
    (RecalculateAll n flushOk db bag now job0).finalJob.processedRecords =
      (((((dispatchFrom (activeSorted db) n 0).map toWork).filterMap
        (workerOutcome (loadRoutingStepsCache db) bag now)).length / n * n : Nat) : ℤ) := by
  have hc := collectorRun_counts n flushOk hn
    (((dispatchFrom (activeSorted db) n 0).map toWork).filterMap
      (workerOutcome (loadRoutingStepsCache db) bag now)) 0 [] (by simpa using hn)
  refine ⟨?_, ?_, ?_⟩
  · show (collectorRun n flushOk 0 []
      (((dispatchFrom (activeSorted db) n 0).map toWork).filterMap
        (workerOutcome (loadRoutingStepsCache db) bag now))).processedCount = _
    rw [hc.1]
    simp
  · show (collectorRun n flushOk 0 []
      (((dispatchFrom (activeSorted db) n 0).map toWork).filterMap
        (workerOutcome (loadRoutingStepsCache db) bag now))).regDeltas = _
    rw [hc.2]
    simp
  · show (Complete ((collectorRun n flushOk 0 []
      (((dispatchFrom (activeSorted db) n 0).map toWork).filterMap
        (workerOutcome (loadRoutingStepsCache db) bag now))).regDeltas.foldl
          (fun (j : BatchJob) (d : Nat) => UpdateProgress j (d : ℤ) 0)
          (UpdateStatus job0 .running 0 0)) now).processedRecords = _
    have hfold := foldl_UpdateProgress
      ((collectorRun n flushOk 0 []
        (((dispatchFrom (activeSorted db) n 0).map toWork).filterMap
          (workerOutcome (loadRoutingStepsCache db) bag now))).regDeltas)
      (UpdateStatus job0 .running 0 0)
    show ((collectorRun n flushOk 0 []
      (((dispatchFrom (activeSorted db) n 0).map toWork).filterMap
        (workerOutcome (loadRoutingStepsCache db) bag now))).regDeltas.foldl
          (fun (j : BatchJob) (d : Nat) => UpdateProgress j (d : ℤ) 0)
          (UpdateStatus job0 .running 0 0)).processedRecords = _
    rw [hfold.1, hc.2]
    simp [UpdateStatus, List.sum_replicate, Nat.smul_one_eq_cast]

theorem progress_added_per_flush_witness :
    0 < 2 ∧
    ((RecalculateAll 2 (fun _ => true) dbThree [] 0 jobInit).processedCount =
      (((dispatchFrom (activeSorted dbThree) 2 0).map toWork).filterMap
        (workerOutcome (loadRoutingStepsCache dbThree) [] 0)).length ∧
    (RecalculateAll 2 (fun _ => true) dbThree [] 0 jobInit).regDeltas =
      List.replicate
        ((((dispatchFrom (activeSorted dbThree) 2 0).map toWork).filterMap
          (workerOutcome (loadRoutingStepsCache dbThree) [] 0)).length / 2) 2 ∧
    (RecalculateAll 2 (fun _ => true) dbThree [] 0 jobInit).finalJob.processedRecords =
      (((((dispatchFrom (activeSorted dbThree) 2 0).map toWork).filterMap
        (workerOutcome (loadRoutingStepsCache dbThree) [] 0)).length / 2 * 2 : Nat) : ℤ)) :=
  ⟨by decide, progress_added_per_flush 2 (fun _ => true) dbThree [] 0 jobInit (by decide)⟩

/-- C9: starting from a freshly created job row (both counters zero),
the registry states a run takes the job through — running-transition,
one additive `UpdateProgress` per full flush, completion — have
non-decreasing `processed_records` and `failed_records` at every
adjacent pair, so any sampling during the run observes a
non-decreasing sequence; and the last state of that sequence is the
run's final job row. -/
theorem progress_monotonic (n : Nat) (flushOk : Nat → Bool) (db : Db) (bag : Bag)
    (now : Nat) (job0 : BatchJob)
    (h0 : job0.processedRecords = 0) (h1 : job0.failedRecords = 0) :
    List.Chain'
      (fun a b => a.processedRecords ≤ b.processedRecords ∧
        a.failedRecords ≤ b.failedRecords)
      (registrySamples job0 (RecalculateAll n flushOk db bag now job0).regDeltas now) ∧
    (registrySamples job0
        (RecalculateAll n flushOk db bag now job0).regDeltas now).getLast? =
      some (RecalculateAll n flushOk db bag now job0).finalJob := by
  constructor
  · show List.Chain' _ (jobTrace job0 _)
    rw [show jobTrace job0
        ((fun j => UpdateStatus j .running 0 0) ::
          ((RecalculateAll n flushOk db bag now job0).regDeltas.map
              (fun (d : Nat) (j : BatchJob) => UpdateProgress j (d : ℤ) 0) ++
            [fun j => Complete j now])) =
        job0 :: jobTrace (UpdateStatus job0 .running 0 0)
          ((RecalculateAll n flushOk db bag now job0).regDeltas.map
              (fun (d : Nat) (j : BatchJob) => UpdateProgress j (d : ℤ) 0) ++
            [fun j => Complete j now]) from rfl]
    apply List.chain'_cons'.mpr
    constructor
    · intro y hy
      rw [jobTrace_head] at hy
      cases hy
      exact ⟨by rw [h0]; simp [UpdateStatus], by rw [h1]; simp [UpdateStatus]⟩
    · apply jobTrace_chain
      intro op hop j
      rcases List.mem_append.mp hop with hm | hc
      · rcases List.mem_map.mp hm with ⟨d, _, hd⟩
        subst hd
        refine ⟨?_, ?_⟩
        · show j.processedRecords ≤ j.processedRecords + (d : ℤ)
          exact le_add_of_nonneg_right (Int.natCast_nonneg d)
        · show j.failedRecords ≤ j.failedRecords + 0
          omega
      · rcases List.mem_singleton.mp hc with rfl
        exact ⟨le_refl _, le_refl _⟩
  · show (jobTrace job0 _).getLast? = _
    rw [jobTrace_getLast]
    rw [List.foldl_cons, List.foldl_append, List.foldl_map]
    rfl

theorem progress_monotonic_witness :
    (jobInit.processedRecords = 0 ∧ jobInit.failedRecords = 0) ∧
    (List.Chain'
      (fun a b => a.processedRecords ≤ b.processedRecords ∧
        a.failedRecords ≤ b.failedRecords)
      (registrySamples jobInit
        (RecalculateAll 1 (fun _ => true) dbOne [] 0 jobInit).regDeltas 0) ∧
    (registrySamples jobInit
        (RecalculateAll 1 (fun _ => true) dbOne [] 0 jobInit).regDeltas 0).getLast? =
      some (RecalculateAll 1 (fun _ => true) dbOne [] 0 jobInit).finalJob) :=
  ⟨⟨rfl, rfl⟩, progress_monotonic 1 (fun _ => true) dbOne [] 0 jobInit rfl rfl⟩

end Costing
